import Mathlib

/-!
Shallow embedding of the `thrashe` set-associative cache simulator
(`src/thrashe.rs`, `src/provider.rs`).

Machine integers are modelled as `Nat` with explicit `% 2 ^ w` where the
Rust code can wrap or truncate (`u32` casts, `u32` shifts, `u64` shifts,
wrapping `fetch_add`).  The atomic per-line word (`AtomicU64`) becomes a
plain `Nat`; atomic read-modify-write operations become pure functions
returning the updated word and counter.  `Vec` becomes `List`.
-/

/-- `CacheSpec` from `thrashe.rs`: the cache geometry, three exponents. -/
structure CacheSpec where
  block_size_bits : Nat
  set_num_bits : Nat
  lines_per_set_bits : Nat
deriving DecidableEq, Repr

/-- `CacheSpec::set_num`: `1 << set_num_bits`. -/
def CacheSpec.set_num (s : CacheSpec) : Nat := 2 ^ s.set_num_bits

/-- `CacheSpec::lines_per_set`: `1 << lines_per_set_bits`. -/
def CacheSpec.lines_per_set (s : CacheSpec) : Nat := 2 ^ s.lines_per_set_bits

/-- `CacheSpec::block_size`: `1 << block_size_bits`. -/
def CacheSpec.block_size (s : CacheSpec) : Nat := 2 ^ s.block_size_bits

/-- `CacheSpec::size`: product of the three derived quantities (as `u64`). -/
def CacheSpec.size (s : CacheSpec) : Nat :=
  (s.block_size * s.set_num * s.lines_per_set) % 2 ^ 64

/-- `CacheSpec::split`: decompose a 64-bit address into `(set_index, tag)`.
The Rust code masks with `block_size() - 1` (not `set_num() - 1`) and casts
both components `as u32`, hence the `% 2 ^ 32` truncations. -/
def CacheSpec.split (s : CacheSpec) (address : Nat) : Nat × Nat :=
  let set_index := ((address >>> s.block_size_bits) &&& (s.block_size - 1)) % 2 ^ 32
  let tag := (address >>> (s.block_size_bits + s.set_num_bits)) % 2 ^ 32
  (set_index, tag)

/-- `CacheSpec::spec_8kib_32bit_2way`: the 8 KiB / 32-byte-line / 2-way preset. -/
def CacheSpec.spec_8kib_32bit_2way : CacheSpec :=
  { block_size_bits := 5, set_num_bits := 7, lines_per_set_bits := 1 }

/-- `CacheLine` from `thrashe.rs`: the unpacked logical fields of a line. -/
@[ext]
structure CacheLine where
  tag : Nat
  access : Nat
  valid : Bool
deriving DecidableEq, Repr

/-- `CacheLineCompact::unpack`: decode the 64-bit line word
(layout: bits 63–32 tag, bits 31–1 access, bit 0 valid). -/
def CacheLineCompact.unpack (val : Nat) : CacheLine :=
  { valid := val &&& 1 == 1
    access := (val % 2 ^ 32) >>> 1
    tag := (val >>> 32) % 2 ^ 32 }

/-- `CacheLineCompact::touch_if_matches` as a pure step: given the current
line word and the current epoch counter, returns `Sum.inl (new_word, new_counter)`
on a match (`Ok(())` in Rust, with the line and counter updated), and
`Sum.inr (some access)` / `Sum.inr none` for occupied / empty lines
(`Err(Some _)` / `Err(None)`, no state change).  `fetch_add` returns the
counter's previous value, so the stored epoch is the old counter `<< 1`
(a `u32` shift, hence `% 2 ^ 32`). -/
def CacheLineCompact.touch_if_matches (val cand_tag epoch_counter : Nat) :
    (Nat × Nat) ⊕ Option Nat :=
  let line := CacheLineCompact.unpack val
  if line.valid && (cand_tag == line.tag) then
    let epoch := (epoch_counter <<< 1) % 2 ^ 32
    let mask : Nat := 0xfffffffe
    let new_val := (val &&& (mask ^^^ (2 ^ 64 - 1))) ||| epoch
    Sum.inl (new_val, (epoch_counter + 1) % 2 ^ 32)
  else if line.valid then
    Sum.inr (some line.access)
  else
    Sum.inr none

/-- `CacheLineCompact::pack_store`: encode a `CacheLine` into the 64-bit
word, following the Rust shift/or sequence exactly (`u64` shifts keep the
low 64 bits, hence the `% 2 ^ 64`). -/
def CacheLineCompact.pack_store (value : CacheLine) : Nat :=
  let e1 : Nat := value.tag
  let e2 := (e1 <<< 31) % 2 ^ 64
  let e3 := e2 ||| value.access
  let e4 := (e3 <<< 1) % 2 ^ 64
  e4 ||| (if value.valid then 1 else 0)

/-- `CacheState` from `thrashe.rs`: sets of packed line words plus the
epoch (recency) counter, the geometry, and the hit/miss counters. -/
structure CacheState where
  sets : List (List Nat)
  epoch : Nat
  spec : CacheSpec
  hits : Nat
  misses : Nat
deriving DecidableEq, Repr

/-- `CacheState::from_spec`: all lines zero (invalid), counters zero. -/
def CacheState.from_spec (spec : CacheSpec) : CacheState :=
  { sets := List.replicate spec.set_num (List.replicate spec.lines_per_set 0)
    epoch := 0
    spec := spec
    hits := 0
    misses := 0 }

/-- One step of the victim-selection accumulator in `touch_address`'s loop:
`st = (oldest_index, oldest_epoch)` and `cand = (line_index, e)` where `e`
is the `Err` payload of `touch_if_matches` (`some v` occupied, `none` empty). -/
def CacheState.victimStep (st : Nat × Option Nat) (cand : Nat × Option Nat) :
    Nat × Option Nat :=
  match st.2, cand.2 with
  | none, _ => st
  | some _, none => (cand.1, none)
  | some acc_e, some cand_e => if cand_e < acc_e then (cand.1, none) else st

/-- The `for line in set.iter()` loop of `touch_address`: scan the words in
order; on the first match return `Sum.inl (index, new_word, new_counter)`
(the loop returns immediately after a hit); otherwise fold the `Err`
payloads through `victimStep` and return `Sum.inr oldest_index`. -/
def CacheState.scanLines : List Nat → Nat → Nat → Nat → Nat × Option Nat →
    (Nat × Nat × Nat) ⊕ Nat
  | [], _, _, _, st => Sum.inr st.1
  | w :: rest, tag, epoch, i, st =>
    match CacheLineCompact.touch_if_matches w tag epoch with
    | Sum.inl (new_val, new_epoch) => Sum.inl (i, new_val, new_epoch)
    | Sum.inr e =>
      CacheState.scanLines rest tag epoch (i + 1) (CacheState.victimStep st (i, e))

/-- The scan over a whole set, with the victim accumulator initialised to
the first line (index 0) and its current recency value read via
`fetch_unpack` (`oldest_epoch = Some(oldest.fetch_unpack().access)`). -/
def CacheState.scanSet (set : List Nat) (tag epoch : Nat) :
    (Nat × Nat × Nat) ⊕ Nat :=
  CacheState.scanLines set tag epoch 0
    (0, some (CacheLineCompact.unpack (set.getD 0 0)).access)

/-- `CacheState::touch_address`.  On a hit the matched line word and the
epoch counter were already updated inside `touch_if_matches`; on a miss the
epoch counter is advanced (`fetch_add` returning the old value), the victim
line is overwritten with `pack_store {tag, access: old_epoch << 1, valid: true}`,
and the miss counter is incremented.  All counters are `u32` and wrap. -/
def CacheState.touch_address (c : CacheState) (address : Nat) : CacheState :=
  let p := c.spec.split address
  let set := c.sets.getD p.1 []
  match CacheState.scanSet set p.2 c.epoch with
  | Sum.inl (j, new_val, new_epoch) =>
    { c with
      sets := c.sets.set p.1 (set.set j new_val)
      epoch := new_epoch
      hits := (c.hits + 1) % 2 ^ 32 }
  | Sum.inr victim =>
    let epoch := (c.epoch <<< 1) % 2 ^ 32
    { c with
      sets := c.sets.set p.1
        (set.set victim (CacheLineCompact.pack_store
          { tag := p.2, access := epoch, valid := true }))
      epoch := (c.epoch + 1) % 2 ^ 32
      misses := (c.misses + 1) % 2 ^ 32 }

/-- `ThrasheReport`: the immutable snapshot. -/
structure ThrasheReport where
  access_count : Nat
  hits : Nat
  misses : Nat
  spec : CacheSpec
deriving DecidableEq, Repr

/-- `CacheState::make_report`. -/
def CacheState.make_report (c : CacheState) : ThrasheReport :=
  { access_count := c.epoch, hits := c.hits, misses := c.misses, spec := c.spec }

/-- `CacheProvider::configure` from `provider.rs`, with the channel's
`RwLock<Option<CacheState>>` slot modelled by explicit state passing:
`replace` installs the fresh state and returns the previous one, which is
mapped through `make_report`. -/
def CacheProvider.configure (spec : CacheSpec) (slot : Option CacheState) :
    Option ThrasheReport × Option CacheState :=
  (slot.map CacheState.make_report, some (CacheState.from_spec spec))

/-- Sequential touches, in list order. -/
def CacheState.runTouches (c : CacheState) (addrs : List Nat) : CacheState :=
  addrs.foldl CacheState.touch_address c

/-- Address sequence of the linear-access scenario: `4200 + 8*i`, `i < 128`. -/
def linearAddrs : List Nat := (List.range 128).map (fun i => 4200 + 8 * i)

/-- Address sequence of the thrashing scenario: for `i < 12`, the three
addresses `4200 + 8*i`, `8296 + 8*i`, `12392 + 8*i` in that order. -/
def thrashAddrs : List Nat :=
  ((List.range 12).map (fun i => [4200 + 8 * i, 8296 + 8 * i, 12392 + 8 * i])).flatten

/-- The full pack arithmetic: for in-range fields the packed word is
`2^32 * tag + 2 * access + valid`. -/
lemma pack_store_eq (t r : Nat) (v : Bool) (ht : t < 2 ^ 32) (hr : r < 2 ^ 31) :
    CacheLineCompact.pack_store { tag := t, access := r, valid := v } =
      2 ^ 32 * t + 2 * r + (if v then 1 else 0) := by
  have h2 : (t <<< 31) % 2 ^ 64 = 2 ^ 31 * t := by
    rw [Nat.shiftLeft_eq, Nat.mod_eq_of_lt (by omega), Nat.mul_comm]
  have h3 : 2 ^ 31 * t ||| r = 2 ^ 31 * t + r := (Nat.mul_add_lt_is_or hr t).symm
  have h4 : ((2 ^ 31 * t + r) <<< 1) % 2 ^ 64 = 2 ^ 1 * (2 ^ 31 * t + r) := by
    rw [Nat.shiftLeft_eq, Nat.mod_eq_of_lt (by omega), Nat.mul_comm]
  have hb : (if v then 1 else 0) < 2 ^ 1 := by cases v <;> simp
  have h5 : 2 ^ 1 * (2 ^ 31 * t + r) ||| (if v then 1 else 0) =
      2 ^ 1 * (2 ^ 31 * t + r) + (if v then 1 else 0) :=
    (Nat.mul_add_lt_is_or hb _).symm
  simp only [CacheLineCompact.pack_store, h2, h3, h4, h5]
  ring

/-- C7: for every 32-bit tag, every recency value below `2^31` and every
validity flag, `pack_store` followed by `unpack` is the identity. -/
theorem c7_pack_unpack_roundtrip (t r : Nat) (v : Bool)
    (ht : t < 2 ^ 32) (hr : r < 2 ^ 31) :
    CacheLineCompact.unpack
        (CacheLineCompact.pack_store { tag := t, access := r, valid := v }) =
      { tag := t, access := r, valid := v } := by
  rw [pack_store_eq t r v ht hr]
  have hb : (if v then 1 else 0) ≤ 1 := by cases v <;> simp
  simp only [CacheLineCompact.unpack]
  refine CacheLine.ext ?_ ?_ ?_
  · rw [Nat.shiftRight_eq_div_pow]
    norm_num
    omega
  · rw [Nat.shiftRight_eq_div_pow]
    norm_num
    omega
  · rw [Nat.and_one_is_mod]
    cases v with
    | false => norm_num; omega
    | true => norm_num; omega

/-- Witness for C7 at the concrete triple used by the repository's own
`pack_unpack` test. -/
theorem c7_witness :
    CacheLineCompact.unpack
        (CacheLineCompact.pack_store
          { tag := 0xABCDEFAB, access := 0x0123456, valid := true }) =
      { tag := 0xABCDEFAB, access := 0x0123456, valid := true } :=
  c7_pack_unpack_roundtrip 0xABCDEFAB 0x0123456 true (by norm_num) (by norm_num)

/-- C3 (amended): `split` computes the set index by shifting right by the
block-size exponent and masking with `block_size − 1` (so the mask width is
the block-size exponent: the set index is always below `block_size`), and
the tag by shifting right by the sum of the exponents; both components are
truncated to 32 bits by the `as u32` casts. -/
theorem c3_split_decomposition (s : CacheSpec) (address : Nat) :
    s.split address =
      (((address >>> s.block_size_bits) &&& (s.block_size - 1)) % 2 ^ 32,
        (address >>> (s.block_size_bits + s.set_num_bits)) % 2 ^ 32) ∧
    (s.split address).1 < s.block_size := by
  refine ⟨rfl, ?_⟩
  have h1 : (s.split address).1 ≤ (address >>> s.block_size_bits) &&& (s.block_size - 1) :=
    Nat.mod_le _ _
  have h2 : (address >>> s.block_size_bits) &&& (s.block_size - 1) ≤ s.block_size - 1 :=
    Nat.and_le_right
  have h3 : 0 < s.block_size := Nat.pos_pow_of_pos _ (by norm_num)
  omega

/-- Counterexample for C3 as stated: at address `2^44` on the preset
geometry the claimed tag `address >> (5 + 7) = 2^32` does not fit in 32
bits; the code's `as u32` cast truncates it to `0`. -/
theorem c3_counterexample :
    ¬ (CacheSpec.spec_8kib_32bit_2way.split (2 ^ 44) =
        ((2 ^ 44 >>> 5) &&& (CacheSpec.spec_8kib_32bit_2way.block_size - 1),
          2 ^ 44 >>> (5 + 7))) := by
  decide

/-- Right shifts distribute over bitwise or. -/
lemma lor_shiftRight_distrib (a b n : Nat) : (a ||| b) >>> n = a >>> n ||| b >>> n := by
  apply Nat.eq_of_testBit_eq
  intro i
  simp [Nat.testBit_or, Nat.testBit_shiftRight]

/-- Right shifts distribute over bitwise and. -/
lemma land_shiftRight_distrib (a b n : Nat) : (a &&& b) >>> n = a >>> n &&& b >>> n := by
  apply Nat.eq_of_testBit_eq
  intro i
  simp [Nat.testBit_and, Nat.testBit_shiftRight]

/-- Left shifts distribute over bitwise and. -/
lemma land_shiftLeft_distrib (a b n : Nat) : (a &&& b) <<< n = a <<< n &&& b <<< n := by
  apply Nat.eq_of_testBit_eq
  intro i
  rw [Bool.eq_iff_iff]
  simp only [Nat.testBit_and, Nat.testBit_shiftLeft, Bool.and_eq_true, decide_eq_true_eq]
  tauto

/-- The high 32 bits of `(val &&& !mask) ||| e` agree with those of `val`
for any `e < 2^32`; the mask complement `!0xfffffffe` keeps bits 63–32. -/
lemma masked_or_hi (val e : Nat) (he : e < 2 ^ 32) :
    ((val &&& (0xfffffffe ^^^ (2 ^ 64 - 1))) ||| e) >>> 32 = (val >>> 32) % 2 ^ 32 := by
  rw [lor_shiftRight_distrib, land_shiftRight_distrib]
  have hnm : ((0xfffffffe : Nat) ^^^ (2 ^ 64 - 1)) >>> 32 = 0xffffffff := by decide
  have he0 : e >>> 32 = 0 := by
    rw [Nat.shiftRight_eq_div_pow]
    exact Nat.div_eq_of_lt he
  rw [hnm, he0, Nat.or_zero, show (0xffffffff : Nat) = 2 ^ 32 - 1 by norm_num,
    Nat.and_pow_two_sub_one_eq_mod]

/-- Bit 0 of `(val &&& !mask) ||| e` agrees with bit 0 of `val` for any
even `e`; the mask complement `!0xfffffffe` keeps bit 0. -/
lemma masked_or_bit0 (val e : Nat) (he : e % 2 = 0) :
    ((val &&& (0xfffffffe ^^^ (2 ^ 64 - 1))) ||| e) &&& 1 = val &&& 1 := by
  rw [Nat.and_distrib_right, Nat.and_assoc]
  have h1 : (((0xfffffffe : Nat) ^^^ (2 ^ 64 - 1)) &&& 1) = 1 := by decide
  have h2 : e &&& 1 = 0 := by rw [Nat.and_one_is_mod, he]
  rw [h1, h2, Nat.or_zero]

/-- After `(val &&& !mask) ||| ((ctr <<< 1) % 2^32)` the recency sub-field
(bits 31–1, selected by the mask `0xfffffffe`) holds exactly
`(ctr <<< 1) % 2^32`. -/
lemma masked_or_subfield (val ctr : Nat) :
    ((val &&& (0xfffffffe ^^^ (2 ^ 64 - 1))) ||| ((ctr <<< 1) % 2 ^ 32)) &&& 0xfffffffe =
      (ctr <<< 1) % 2 ^ 32 := by
  rw [Nat.and_distrib_right, Nat.and_assoc]
  have h1 : (((0xfffffffe : Nat) ^^^ (2 ^ 64 - 1)) &&& 0xfffffffe) = 0 := by decide
  rw [h1, Nat.and_zero, Nat.zero_or]
  have he : (ctr <<< 1) % 2 ^ 32 = (ctr % 2 ^ 31) <<< 1 := by
    rw [Nat.shiftLeft_eq, Nat.shiftLeft_eq]
    simp only [pow_one]
    omega
  have hk : ctr % 2 ^ 31 < 2 ^ 31 := Nat.mod_lt _ (by norm_num)
  rw [he, show (0xfffffffe : Nat) = (2 ^ 31 - 1) <<< 1 by decide,
    ← land_shiftLeft_distrib, Nat.and_pow_two_sub_one_eq_mod, Nat.mod_mod]

/-- C4 (amended): on a valid line whose tag equals the candidate,
`touch_if_matches` increments the shared recency counter (wrapping at
`2^32`), stores the counter's value from *before* the increment, left-shifted
by one bit, into the recency sub-field (bits 31–1) only — tag and validity
unchanged — and signals a match (`Sum.inl`). -/
theorem c4_hit_touch (val cand ctr : Nat)
    (hv : (CacheLineCompact.unpack val).valid = true)
    (ht : (CacheLineCompact.unpack val).tag = cand) :
    ∃ w', CacheLineCompact.touch_if_matches val cand ctr =
        Sum.inl (w', (ctr + 1) % 2 ^ 32) ∧
      (CacheLineCompact.unpack w').tag = (CacheLineCompact.unpack val).tag ∧
      (CacheLineCompact.unpack w').valid = (CacheLineCompact.unpack val).valid ∧
      w' &&& 0xfffffffe = (ctr <<< 1) % 2 ^ 32 := by
  refine ⟨(val &&& (0xfffffffe ^^^ (2 ^ 64 - 1))) ||| ((ctr <<< 1) % 2 ^ 32),
    ?_, ?_, ?_, masked_or_subfield val ctr⟩
  · simp [CacheLineCompact.touch_if_matches, hv, ← ht]
  · simp only [CacheLineCompact.unpack]
    rw [masked_or_hi _ _ (Nat.mod_lt _ (by norm_num)), Nat.mod_mod]
  · have heven : ((ctr <<< 1) % 2 ^ 32) % 2 = 0 := by
      rw [Nat.shiftLeft_eq]
      simp only [pow_one]
      omega
    simp only [CacheLineCompact.unpack]
    rw [masked_or_bit0 _ _ heven]

/-- Witness for C4 on the concrete line word `5 * 2^32 + 1` (valid, tag 5,
recency 0), candidate tag 5, counter 0. -/
theorem c4_witness :
    ∃ w', CacheLineCompact.touch_if_matches (5 * 2 ^ 32 + 1) 5 0 =
        Sum.inl (w', (0 + 1) % 2 ^ 32) ∧
      (CacheLineCompact.unpack w').tag =
        (CacheLineCompact.unpack (5 * 2 ^ 32 + 1)).tag ∧
      (CacheLineCompact.unpack w').valid =
        (CacheLineCompact.unpack (5 * 2 ^ 32 + 1)).valid ∧
      w' &&& 0xfffffffe = (0 <<< 1) % 2 ^ 32 :=
  c4_hit_touch (5 * 2 ^ 32 + 1) 5 0 (by decide) (by decide)

/-- Counterexample for C4 as stated: for the same concrete match with
counter 0, the result is not the word whose recency sub-field holds the
counter's *new* (post-increment) value `(0 + 1) << 1`; the code stores the
previous value `0 << 1 = 0`. -/
theorem c4_counterexample :
    CacheLineCompact.touch_if_matches (5 * 2 ^ 32 + 1) 5 0 ≠
      Sum.inl (((5 * 2 ^ 32 + 1) &&& (0xfffffffe ^^^ (2 ^ 64 - 1))) |||
        (((0 + 1) <<< 1) % 2 ^ 32), (0 + 1) % 2 ^ 32) := by
  decide

/-- C5 (amended): when the scan over the selected set finds no matching
line, `touch_address` advances the recency counter (wrapping at `2^32`),
unconditionally overwrites the selected victim line with the packed triple
`{tag, recency = the counter's value from before the increment left-shifted
by one bit, valid = true}`, and increments the miss counter; the hit
counter and geometry are untouched. -/
theorem c5_miss_install (c : CacheState) (address victim : Nat)
    (h : CacheState.scanSet (c.sets.getD (c.spec.split address).1 [])
        (c.spec.split address).2 c.epoch = Sum.inr victim) :
    c.touch_address address =
      { c with
        sets := c.sets.set (c.spec.split address).1
          ((c.sets.getD (c.spec.split address).1 []).set victim
            (CacheLineCompact.pack_store
              { tag := (c.spec.split address).2
                access := (c.epoch <<< 1) % 2 ^ 32
                valid := true }))
        epoch := (c.epoch + 1) % 2 ^ 32
        misses := (c.misses + 1) % 2 ^ 32 } := by
  simp only [CacheState.touch_address, h]

/-- Witness for C5: a fresh preset state touched at address 4200 (set 3,
tag 1, empty set, victim index 0). -/
theorem c5_witness :
    (CacheState.from_spec CacheSpec.spec_8kib_32bit_2way).touch_address 4200 =
      { CacheState.from_spec CacheSpec.spec_8kib_32bit_2way with
        sets := (CacheState.from_spec CacheSpec.spec_8kib_32bit_2way).sets.set
          ((CacheSpec.spec_8kib_32bit_2way.split 4200).1)
          (((CacheState.from_spec CacheSpec.spec_8kib_32bit_2way).sets.getD
              ((CacheSpec.spec_8kib_32bit_2way.split 4200).1) []).set 0
            (CacheLineCompact.pack_store
              { tag := (CacheSpec.spec_8kib_32bit_2way.split 4200).2
                access := ((0 : Nat) <<< 1) % 2 ^ 32
                valid := true }))
        epoch := ((0 : Nat) + 1) % 2 ^ 32
        misses := ((0 : Nat) + 1) % 2 ^ 32 } :=
  c5_miss_install (CacheState.from_spec CacheSpec.spec_8kib_32bit_2way) 4200 0
    (by decide)

/-- Counterexample for C5 as stated: after touching address 4200 from the
fresh preset state (counter 0), the installed victim word is not the pack
of the counter's *new* (post-increment) value `(0 + 1) << 1` — the code
packs the previous value `0 << 1 = 0`. -/
theorem c5_counterexample :
    ((CacheState.from_spec CacheSpec.spec_8kib_32bit_2way).touch_address 4200
        |>.sets.getD 3 []).getD 0 0 ≠
      CacheLineCompact.pack_store
        { tag := 1, access := ((0 + 1) <<< 1) % 2 ^ 32, valid := true } := by
  decide

/-- Once the baseline is `none`, the rest of a scan can never change the
victim: a scan that ends without a match returns the victim it entered with. -/
lemma scanLines_none_inr (set : List Nat) (tag epoch : Nat) :
    ∀ i j v, CacheState.scanLines set tag epoch i (j, none) = Sum.inr v → v = j := by
  induction set with
  | nil =>
    intro i j v h
    simp only [CacheState.scanLines, Sum.inr.injEq] at h
    exact h.symm
  | cons w rest ih =>
    intro i j v h
    simp only [CacheState.scanLines] at h
    cases hm : CacheLineCompact.touch_if_matches w tag epoch with
    | inl p =>
      obtain ⟨a, b⟩ := p
      rw [hm] at h
      simp at h
    | inr e =>
      rw [hm] at h
      simp only [CacheState.victimStep] at h
      exact ih (i + 1) j v h

/-- C6: the victim-selection policy of the scan.  (1) The baseline starts
as the first line's current recency value; (2) an empty line is adopted,
and the baseline cleared, whenever the baseline is still a real value;
(3) an occupied line with recency `v` is adopted, and the baseline cleared,
exactly when the baseline is a real value `b` with `v < b`; (4) otherwise
it is ignored; (5) once the baseline is `none` every candidate is ignored;
(6) hence after any adoption no later candidate in the scan can displace
the victim of a missing scan. -/
theorem c6_victim_selection :
    (∀ set tag epoch, CacheState.scanSet set tag epoch =
      CacheState.scanLines set tag epoch 0
        (0, some (CacheLineCompact.unpack (set.getD 0 0)).access)) ∧
    (∀ i0 b i, CacheState.victimStep (i0, some b) (i, none) = (i, none)) ∧
    (∀ i0 b i v, v < b →
      CacheState.victimStep (i0, some b) (i, some v) = (i, none)) ∧
    (∀ i0 b i v, ¬ v < b →
      CacheState.victimStep (i0, some b) (i, some v) = (i0, some b)) ∧
    (∀ i0 i e, CacheState.victimStep (i0, none) (i, e) = (i0, none)) ∧
    (∀ set tag epoch i j v,
      CacheState.scanLines set tag epoch i (j, none) = Sum.inr v → v = j) := by
  refine ⟨fun _ _ _ => rfl, fun _ _ _ => rfl, ?_, ?_, fun _ _ _ => rfl,
    fun set tag epoch => scanLines_none_inr set tag epoch⟩
  · intro i0 b i v hv
    simp [CacheState.victimStep, hv]
  · intro i0 b i v hv
    simp [CacheState.victimStep, hv]

/-- Witness for C6: concrete adoptions and a concrete absorbed scan. -/
theorem c6_witness :
    CacheState.victimStep (0, some 5) (1, some 3) = (1, none) ∧
    CacheState.victimStep (0, some 5) (1, some 7) = (0, some 5) ∧
    (1 : Nat) = 1 :=
  ⟨c6_victim_selection.2.2.1 0 5 1 3 (by decide),
   c6_victim_selection.2.2.2.1 0 5 1 7 (by decide),
   c6_victim_selection.2.2.2.2.2 [0, 0] 9 0 0 1 1 (by decide)⟩

/-- C8: `configure` installs a brand-new state built from the geometry —
counters all zero, every line word invalid — replacing any previous one,
and returns the previous state's report if a state existed, else nothing. -/
theorem c8_configure_fresh (spec : CacheSpec) (slot : Option CacheState) :
    (CacheProvider.configure spec slot).2 = some (CacheState.from_spec spec) ∧
    (CacheState.from_spec spec).epoch = 0 ∧
    (CacheState.from_spec spec).hits = 0 ∧
    (CacheState.from_spec spec).misses = 0 ∧
    (CacheState.from_spec spec).spec = spec ∧
    (∀ st ∈ (CacheState.from_spec spec).sets, ∀ w ∈ st,
      (CacheLineCompact.unpack w).valid = false) ∧
    (slot = none → (CacheProvider.configure spec slot).1 = none) ∧
    (∀ s0, slot = some s0 →
      (CacheProvider.configure spec slot).1 = some s0.make_report) := by
  refine ⟨rfl, rfl, rfl, rfl, rfl, ?_, ?_, ?_⟩
  · intro st hst w hw
    rw [List.eq_of_mem_replicate hst] at hw
    rw [List.eq_of_mem_replicate hw]
    decide
  · rintro rfl
    rfl
  · rintro s0 rfl
    rfl

/-- Witness for C8 at the preset geometry, with an empty and a non-empty
previous slot. -/
theorem c8_witness :
    (CacheLineCompact.unpack 0).valid = false ∧
    (CacheProvider.configure CacheSpec.spec_8kib_32bit_2way none).1 = none ∧
    (CacheProvider.configure CacheSpec.spec_8kib_32bit_2way
        (some (CacheState.from_spec CacheSpec.spec_8kib_32bit_2way))).1 =
      some ((CacheState.from_spec CacheSpec.spec_8kib_32bit_2way).make_report) :=
  ⟨(c8_configure_fresh CacheSpec.spec_8kib_32bit_2way none).2.2.2.2.2.1
      (List.replicate 2 0) (by decide) 0 (by decide),
   (c8_configure_fresh CacheSpec.spec_8kib_32bit_2way none).2.2.2.2.2.2.1 rfl,
   (c8_configure_fresh CacheSpec.spec_8kib_32bit_2way
      (some (CacheState.from_spec CacheSpec.spec_8kib_32bit_2way))).2.2.2.2.2.2.2
      _ rfl⟩

/-- C9 (amended): the sets collection has `set_num` entries; whenever
`block_size_bits ≤ set_num_bits` every 64-bit address yields a set index
below `set_num`, so the set lookup in `touch_address` is in bounds; and
whenever `set_num_bits < block_size_bits` *and* the two exponents sum to at
most 63, some 64-bit address yields a set index at or beyond `set_num`. -/
theorem c9_set_index_bounds (s : CacheSpec) (address : Nat) :
    ((CacheState.from_spec s).sets.length = s.set_num) ∧
    (address < 2 ^ 64 → s.block_size_bits ≤ s.set_num_bits →
      (s.split address).1 < s.set_num) ∧
    (s.set_num_bits < s.block_size_bits →
      s.block_size_bits + s.set_num_bits ≤ 63 →
      ∃ a, a < 2 ^ 64 ∧ s.set_num ≤ (s.split a).1) := by
  refine ⟨by simp [CacheState.from_spec], ?_, ?_⟩
  · intro _ hle
    show ((address >>> s.block_size_bits) &&& (s.block_size - 1)) % 2 ^ 32 < s.set_num
    have h1 := Nat.mod_le
      ((address >>> s.block_size_bits) &&& (s.block_size - 1)) (2 ^ 32)
    have h2 : (address >>> s.block_size_bits) &&& (s.block_size - 1) ≤
        s.block_size - 1 := Nat.and_le_right
    have h3 : s.block_size ≤ s.set_num :=
      Nat.pow_le_pow_right (by norm_num) hle
    have h4 : 0 < s.block_size := Nat.pos_pow_of_pos _ (by norm_num)
    omega
  · intro hlt hsum
    refine ⟨2 ^ (s.set_num_bits + s.block_size_bits), ?_, ?_⟩
    · calc 2 ^ (s.set_num_bits + s.block_size_bits) ≤ 2 ^ 63 :=
          Nat.pow_le_pow_right (by norm_num) (by omega)
        _ < 2 ^ 64 := by norm_num
    · show s.set_num ≤
        ((2 ^ (s.set_num_bits + s.block_size_bits) >>> s.block_size_bits) &&&
          (s.block_size - 1)) % 2 ^ 32
      have hshift : (2 ^ (s.set_num_bits + s.block_size_bits)) >>> s.block_size_bits =
          2 ^ s.set_num_bits := by
        rw [Nat.shiftRight_eq_div_pow, Nat.pow_add,
          Nat.mul_div_cancel _ (Nat.pos_pow_of_pos _ (by norm_num))]
      have hand : (2 ^ s.set_num_bits) &&& (s.block_size - 1) = 2 ^ s.set_num_bits := by
        have hlt2 : (2 : Nat) ^ s.set_num_bits < 2 ^ s.block_size_bits :=
          Nat.pow_lt_pow_right (by norm_num) hlt
        exact Nat.and_pow_two_sub_one_of_lt_two_pow hlt2
      rw [hshift, hand, Nat.mod_eq_of_lt]
      · exact Nat.le_refl _
      · have : (2 : Nat) ^ s.set_num_bits ≤ 2 ^ 31 :=
          Nat.pow_le_pow_right (by norm_num) (by omega)
        omega

/-- Witness for C9: both branches at concrete geometries — the preset
(5 ≤ 7, address `2^64 - 1`) and the geometry `(7, 5, 1)` with the exponents
swapped. -/
theorem c9_witness :
    ((CacheSpec.spec_8kib_32bit_2way.split (2 ^ 64 - 1)).1 <
      CacheSpec.spec_8kib_32bit_2way.set_num) ∧
    (∃ a, a < 2 ^ 64 ∧
      (CacheSpec.mk 7 5 1).set_num ≤ ((CacheSpec.mk 7 5 1).split a).1) :=
  ⟨((c9_set_index_bounds CacheSpec.spec_8kib_32bit_2way (2 ^ 64 - 1)).2.1
      (by norm_num) (by decide)),
   ((c9_set_index_bounds (CacheSpec.mk 7 5 1) 0).2.2 (by decide) (by decide))⟩

/-- Counterexample for C9 as stated: for the geometry with exponents
`(block 33, sets 32)` and `block_size_bits > set_num_bits`, no 64-bit
address reaches the set count — the `as u32` cast keeps every set index
below `2^32 = set_num`. -/
theorem c9_counterexample :
    ¬ ∃ a, a < 2 ^ 64 ∧
      (CacheSpec.mk 33 32 0).set_num ≤ ((CacheSpec.mk 33 32 0).split a).1 := by
  rintro ⟨a, -, h⟩
  have h1 : ((CacheSpec.mk 33 32 0).split a).1 < 2 ^ 32 :=
    Nat.mod_lt _ (by norm_num)
  have h2 : (CacheSpec.mk 33 32 0).set_num = 2 ^ 32 := rfl
  omega

set_option maxRecDepth 40000 in
/-- C1: the linear-access scenario on the preset geometry gives access
count 128, hits 96, misses 32. -/
theorem c1_linear_access_scenario :
    (CacheState.runTouches (CacheState.from_spec CacheSpec.spec_8kib_32bit_2way)
        linearAddrs).make_report =
      { access_count := 128, hits := 96, misses := 32,
        spec := CacheSpec.spec_8kib_32bit_2way } := by
  decide

set_option maxRecDepth 40000 in
/-- C2: the thrashing scenario on the preset geometry gives access count
36, misses 36, hits 0. -/
theorem c2_thrashing_scenario :
    (CacheState.runTouches (CacheState.from_spec CacheSpec.spec_8kib_32bit_2way)
        thrashAddrs).make_report =
      { access_count := 36, hits := 0, misses := 36,
        spec := CacheSpec.spec_8kib_32bit_2way } := by
  decide
